import Mathlib

/-!
WolGoWeb: device registry, liveness prober and network discovery scanner

A shallow embedding of `src/device.go` and `src/scan.go`.

* Go strings are Lean `String`s; equality is equality of the text.
* The package-level variables `devices` and the contents of `devicesFile` form
  the explicit state `Registry`; every operation takes the state and returns
  the new one together with the returned `error` (`none` is `nil`).
* The environment (JSON encoder, file system, clock, `ping`) is passed in as
  explicit arguments.
-/

set_option autoImplicit false

namespace WolGoWeb

/-! ## device.go : data model -/

/-- A `time.Time` value, as an abstract instant. -/
abbrev Time := Nat

/-- The struct `Device` (device.go, lines 14-22). -/
structure Device where
  ID : String
  Name : String
  MAC : String
  IP : String
  Port : String
  IsOnline : Bool
  LastOnline : Time
  deriving DecidableEq, Repr

/-- The values of Go type `error` the registry returns. -/
inductive Error where
  /-- `fmt.Errorf("device with MAC %s or IP %s already exists", d.MAC, d.IP)` -/
  | duplicateDevice (mac ip : String)
  /-- `fmt.Errorf("device not found")` -/
  | notFound
  /-- an error of `json.MarshalIndent` or `ioutil.WriteFile` -/
  | persistence (msg : String)
  deriving DecidableEq, Repr

/-- The mutable state guarded by `mutex`: the slice `devices` and the bytes
stored in `devicesFile` (`none` while the file does not exist). -/
structure Registry where
  devices : List Device
  file : Option String
  deriving DecidableEq, Repr

/-- What a call of `ioutil.WriteFile(devicesFile, data, 0644)` does, as decided
by the operating system: it stores `data`, or it fails with an error and
leaves `residue` in the file. -/
inductive WriteResult where
  | ok
  | failed (msg : String) (residue : Option String)
  deriving DecidableEq, Repr

/-- The encoder `json.MarshalIndent(devices, "", "  ")`. -/
abbrev Marshal := List Device → Except String String

/-! ## device.go : registry operations -/

/-- The function `saveDevicesUnlocked` (device.go, lines 107-113). -/
def saveDevicesUnlocked (marshal : Marshal) (w : WriteResult) (r : Registry) :
    Registry × Option Error :=
  match marshal r.devices with
  | .error e => (r, some (.persistence e))
  | .ok data =>
    match w with
    | .ok => ({ r with file := some data }, none)
    | .failed e residue => ({ r with file := residue }, some (.persistence e))

/-- The loop condition of `AddDevice` (device.go, line 74). -/
def isDuplicateOf (d dev : Device) : Bool :=
  dev.MAC == d.MAC || (dev.IP == d.IP && dev.IP != "")

/-- The function `AddDevice` (device.go, lines 69-80). -/
def AddDevice (marshal : Marshal) (w : WriteResult) (d : Device) (r : Registry) :
    Registry × Option Error :=
  if r.devices.any (isDuplicateOf d) then
    (r, some (.duplicateDevice d.MAC d.IP))
  else
    saveDevicesUnlocked marshal w { r with devices := r.devices ++ [d] }

/-- The function `RemoveDevice` (device.go, lines 82-92): the first index `i`
whose device carries `id` is cut out by `append(devices[:i], devices[i+1:]...)`. -/
def RemoveDevice (marshal : Marshal) (w : WriteResult) (id : String) (r : Registry) :
    Registry × Option Error :=
  match r.devices.findIdx? (fun dev => dev.ID == id) with
  | some i =>
    saveDevicesUnlocked marshal w
      { r with devices := r.devices.take i ++ r.devices.drop (i + 1) }
  | none => (r, some .notFound)

/-- The function `GetDevice` (device.go, lines 94-103). -/
def GetDevice (id : String) (r : Registry) : Except Error Device :=
  match r.devices.find? (fun dev => dev.ID == id) with
  | some dev => .ok dev
  | none => .error .notFound

/-- The function `Ping` (device.go, lines 125-139); `probe ip` is whether the
`ping` command run on `ip` exits without error. -/
def Ping (probe : String → Bool) (ip : String) : Bool :=
  if ip = "" then false else probe ip

/-- The map `results` of `UpdateStatuses`, as a lookup function. -/
abbrev Results := String → Option Bool

/-- The assignment `results[k] = v`. -/
def Results.set (m : Results) (k : String) (v : Bool) : Results :=
  fun k' => if k' = k then some v else m k'

/-- The goroutines of `UpdateStatuses` (device.go, lines 150-163): each pings
its device and stores the outcome under the device id. `done` lists the
snapshot `currentDevices` in the order in which the goroutines store. -/
def collectResults (probe : String → Bool) (done : List Device) : Results :=
  done.foldl (fun m d => m.set d.ID (Ping probe d.IP)) (fun _ => none)

/-- The loop of `UpdateStatuses` over `devices` (device.go, lines 167-174),
from index `i` on; `now i` is the value `time.Now()` returns in iteration `i`. -/
def applyResults (now : Nat → Time) (results : Results) : Nat → List Device → List Device
  | _, [] => []
  | i, d :: ds =>
    (match results d.ID with
      | some status =>
        { d with IsOnline := status, LastOnline := if status then now i else d.LastOnline }
      | none => d) :: applyResults now results (i + 1) ds

/-- The function `UpdateStatuses` (device.go, lines 142-176). The error of the
final `saveDevicesUnlocked()` is dropped, as in the source. -/
def UpdateStatuses (marshal : Marshal) (w : WriteResult) (probe : String → Bool)
    (now : Nat → Time) (done : List Device) (r : Registry) : Registry :=
  (saveDevicesUnlocked marshal w
    { r with devices := applyResults now (collectResults probe done) 0 r.devices }).1

/-- Whether a returned `error` is the duplicate-device error of `AddDevice`. -/
def Error.isDuplicate : Option Error → Bool
  | some (.duplicateDevice _ _) => true
  | _ => false

/-! ## scan.go : string helpers of the Go standard library -/

/-- The library function `strings.Split(s, sep)` for a one-character `sep`, on the
characters of `s`: the pieces between the separators, `[""]` for the empty string. -/
def splitChars (sep : Char) : List Char → List (List Char)
  | [] => [[]]
  | c :: cs =>
    if c = sep then [] :: splitChars sep cs
    else
      match splitChars sep cs with
      | [] => [[c]]
      | p :: ps => (c :: p) :: ps

/-- The library function `strings.Split(s, sep)` for a one-character `sep`. -/
def Split (s : String) (sep : Char) : List String :=
  (splitChars sep s.toList).map String.mk

/-- Go's `a < b` on strings: lexicographic order of the text. -/
def lessChars : List Char → List Char → Bool
  | _, [] => false
  | [], _ :: _ => true
  | a :: as, b :: bs => a.toNat < b.toNat || (a = b && lessChars as bs)

/-- Go's `a >= b` on strings. -/
def strGE (a b : String) : Bool := !lessChars a.toList b.toList

/-- The library function `strings.ToLower`, on ASCII text (the only text the
scanner passes to it: a match of `reMAC`). -/
def ToLower (s : String) : String := String.mk (s.toList.map Char.toLower)

/-- The library function `strings.ToUpper`, on ASCII text. -/
def ToUpper (s : String) : String := String.mk (s.toList.map Char.toUpper)

/-- The library function `strings.HasPrefix`. -/
def HasPrefix (s pre : String) : Bool := pre.toList.isPrefixOf s.toList

/-- The library function `strings.ReplaceAll(s, old, new)` for one-character
`old` and `new`. -/
def ReplaceAll (s : String) (old new : Char) : String :=
  String.mk (s.toList.map (fun c => if c = old then new else c))

/-! ## scan.go : address filters -/

/-- The struct `ScannedDevice` (scan.go, lines 14-17). -/
structure ScannedDevice where
  IP : String
  MAC : String
  deriving DecidableEq, Repr

/-- The function `isValidScanIP` (scan.go, lines 20-49). -/
def isValidScanIP (ip : String) : Bool :=
  match Split ip '.' with
  | [firstOctet, second, _, _] =>
    if firstOctet = "224" || firstOctet = "239" then false
    else if strGE firstOctet "240" then false
    else if firstOctet = "127" then false
    else if firstOctet = "169" && second = "254" then false
    else true
  | _ => false

/-- The function `isValidMAC` (scan.go, lines 52-76). -/
def isValidMAC (mac : String) : Bool :=
  let mac := ToLower mac
  if HasPrefix mac "ff:ff:ff" then false
  else if HasPrefix mac "01:00:5e" then false
  else if HasPrefix mac "33:33" then false
  else if mac = "00:00:00:00:00:00" then false
  else true

/-! ## scan.go : the two regular expressions of `parseArpOutput`

A matcher takes the rest of the line and returns the matched text, if the
pattern matches at the start of it. Patterns are built in continuation style,
which gives the leftmost-first (backtracking) match Go's `regexp` returns. -/

/-- A matcher at a fixed position. -/
abbrev Matcher := List Char → Option (List Char)

/-- The end of a pattern. -/
def matchEnd : Matcher := fun _ => some []

/-- One character of class `p`, then `k`. -/
def matchClass (p : Char → Bool) (k : Matcher) : Matcher
  | [] => none
  | c :: cs => if p c then (k cs).map (c :: ·) else none

/-- Exactly `n` characters of class `p`, then `k`. -/
def matchCount (p : Char → Bool) (n : Nat) (k : Matcher) : Matcher := fun s =>
  if n ≤ s.length ∧ (s.take n).all p then (k (s.drop n)).map (s.take n ++ ·) else none

/-- The class `\d`. -/
def isDigit (c : Char) : Bool := '0' ≤ c && c ≤ '9'

/-- The class `[0-9a-fA-F]`. -/
def isHexDigit (c : Char) : Bool :=
  ('0' ≤ c && c ≤ '9') || ('a' ≤ c && c ≤ 'f') || ('A' ≤ c && c ≤ 'F')

/-- The class `[:-]`. -/
def isMacSep (c : Char) : Bool := c = ':' || c = '-'

/-- The greedy `\d{1,3}`, then `k`: three digits are tried first, then two, then one. -/
def matchDigits (k : Matcher) : Matcher := fun s =>
  match matchCount isDigit 3 k s with
  | some m => some m
  | none =>
    match matchCount isDigit 2 k s with
    | some m => some m
    | none => matchCount isDigit 1 k s

/-- The pattern `reIP` at a fixed position. -/
def reIP : Matcher :=
  matchDigits (matchClass (· = '.') (matchDigits (matchClass (· = '.')
    (matchDigits (matchClass (· = '.') (matchDigits matchEnd))))))

/-- The group `[0-9a-fA-F]{2}`, then `k`. -/
def matchHex2 (k : Matcher) : Matcher :=
  matchClass isHexDigit (matchClass isHexDigit k)

/-- The pattern `reMAC` at a fixed position. -/
def reMAC : Matcher :=
  matchHex2 (matchClass isMacSep (matchHex2 (matchClass isMacSep (matchHex2
    (matchClass isMacSep (matchHex2 (matchClass isMacSep (matchHex2
      (matchClass isMacSep (matchHex2 matchEnd))))))))))

/-- The leftmost position at which `m` matches, scanning the text from the left. -/
def findFirst (m : Matcher) : List Char → Option (List Char)
  | [] => m []
  | c :: cs =>
    match m (c :: cs) with
    | some r => some r
    | none => findFirst m cs

/-- The method `(*Regexp).FindString`: the text of the leftmost match, `""` if none. -/
def FindString (re : Matcher) (s : String) : String :=
  match findFirst re s.toList with
  | some r => String.mk r
  | none => ""

/-! ## scan.go : parsing the neighbor table -/

/-- The state of the loop of `parseArpOutput`: the slice `devices` and the map `seen`. -/
structure ParseState where
  devices : List ScannedDevice
  seen : String → Bool

/-- One iteration of the loop of `parseArpOutput` (scan.go, lines 206-231). -/
def parseLine (st : ParseState) (line : String) : ParseState :=
  let ipMatch := FindString reIP line
  let macMatch := FindString reMAC line
  if ipMatch ≠ "" ∧ macMatch ≠ "" then
    let normalizedMAC := ToUpper (ReplaceAll macMatch '-' ':')
    if !isValidScanIP ipMatch then st
    else if !isValidMAC normalizedMAC then st
    else if !st.seen normalizedMAC then
      { devices := st.devices ++ [{ IP := ipMatch, MAC := normalizedMAC }],
        seen := fun k => if k = normalizedMAC then true else st.seen k }
    else st
  else st

/-- The function `parseArpOutput` (scan.go, lines 191-233). -/
def parseArpOutput (output : String) : List ScannedDevice :=
  ((Split output '\n').foldl parseLine { devices := [], seen := fun _ => false }).devices

/-- The candidate a line of the neighbor table yields when it is accepted: it
holds an IP token and a MAC token and both pass the filters. The MAC is in
normalised form (uppercase, colon-separated). -/
def lineCandidate (line : String) : Option ScannedDevice :=
  let ipMatch := FindString reIP line
  let macMatch := FindString reMAC line
  let normalizedMAC := ToUpper (ReplaceAll macMatch '-' ':')
  if ipMatch ≠ "" ∧ macMatch ≠ "" ∧ isValidScanIP ipMatch = true ∧
      isValidMAC normalizedMAC = true then
    some { IP := ipMatch, MAC := normalizedMAC }
  else none

/-! ## scan.go : subnet enumeration -/

/-- The type `net.IP` in its 4-byte form: the bytes of the address, most
significant first. -/
abbrev IP := List Nat

/-- The library function `net.CIDRMask(ones, 8 * len)`: `ones` one-bits followed
by zero-bits, as `len` bytes. -/
def CIDRMask : Nat → Nat → List Nat
  | _, 0 => []
  | n, len + 1 =>
    if 8 ≤ n then 255 :: CIDRMask (n - 8) len
    else (255 - (255 >>> n)) :: CIDRMask 0 len

/-- The library method `ip.Mask(mask)` for an address and a mask of the same
length: `out[i] = ip[i] & mask[i]`. -/
def Mask (ip mask : List Nat) : IP := List.zipWith (· &&& ·) ip mask

/-- A value of Go's `int` (64 bits, two's complement) from the exact result. -/
def wrapInt (x : Int) : Int := (x + 2 ^ 63) % 2 ^ 64 - 2 ^ 63

/-- The number of addresses to scan (scan.go, lines 90-97), for a mask of
`ones` leading one-bits out of `bits = 32` (`ones, bits := ipNet.Mask.Size()`,
so `ones ≤ 32` and the shift count is not negative). -/
def hostCount (ones : Nat) : Int :=
  let bits : Int := 32
  let maskSize := wrapInt (bits - ones)
  let hostCount := wrapInt (wrapInt ((1 <<< maskSize.toNat : Nat) : Int) - 2)
  if hostCount > 512 then 512 else hostCount

/-- The inner loop of `ScanLocalNetwork` (scan.go, lines 111-115), on the bytes
from the last one backwards: `offset` is added to the byte and the overflow
carried to the next. -/
def addOffsetRev : List Nat → Int → List Nat
  | [], _ => []
  | b :: bs, offset =>
    if offset > 0 then
      let sum := wrapInt (b + offset)
      (sum % 256).toNat :: addOffsetRev bs (sum / 256)
    else b :: bs

/-- The target address of iteration `i` (scan.go, lines 106-115): a copy of
`baseIP` with `i` added. -/
def addOffset (baseIP : IP) (i : Int) : IP :=
  (addOffsetRev baseIP.reverse i).reverse

/-- The addresses the loop of `ScanLocalNetwork` generates (scan.go, lines
103-115), for `i = 1, ..., hostCount`, before the test `targetIP.Equal(ip)`.
The local network is the address `ip` with the mask `net.CIDRMask(ones, 32)`. -/
def candidateIPs (ip : IP) (ones : Nat) : List IP :=
  let baseIP := Mask ip (CIDRMask ones 4)
  (List.range' 1 (hostCount ones).toNat).map (fun (i : Nat) => addOffset baseIP (i : Int))

/-- The addresses `ScanLocalNetwork` pings (scan.go, lines 104-128): the
generated ones except those equal to `ip`. -/
def scanTargets (ip : IP) (ones : Nat) : List IP :=
  (candidateIPs ip ones).filter (fun targetIP => !(targetIP == ip))

/-- The 32-bit big-endian value of a 4-byte address. -/
def ipValue : IP → Nat
  | [a, b, c, d] => ((a * 256 + b) * 256 + c) * 256 + d
  | _ => 0

/-- The 4-byte address of a 32-bit big-endian value. -/
def ipOfValue (v : Nat) : IP :=
  [v / 16777216 % 256, v / 65536 % 256, v / 256 % 256, v % 256]

/-- A well-formed IPv4 address: four bytes. -/
def IsIPv4 (ip : IP) : Prop := ip.length = 4 ∧ ∀ b ∈ ip, b < 256

/-- The library method `ipNet.Contains(a)` for the network of `ip` with prefix
length `ones`: `a` masked is the network address. -/
def inSubnet (ip : IP) (ones : Nat) (a : IP) : Prop :=
  Mask a (CIDRMask ones 4) = Mask ip (CIDRMask ones 4)

/-- The host addresses of the subnet of `ip`: the addresses of the subnet other
than the network address and the broadcast address. -/
def IsHostAddress (ip : IP) (ones : Nat) (a : IP) : Prop :=
  IsIPv4 a ∧ inSubnet ip ones a ∧
    ipValue a ≠ ipValue (Mask ip (CIDRMask ones 4)) ∧
    ipValue a ≠ ipValue (Mask ip (CIDRMask ones 4)) + 2 ^ (32 - ones) - 1

/-! ## scan.go : the filters as the claims state them -/

/-- The claimed result of `isValidScanIP` for the address `a.b.c.d`, from the
numbers of its first two octets: rejected exactly when the first octet is 224
or 239, or at least 240, or 127, or 169 with second octet 254. -/
def expectedValidScanIP (a b : Nat) : Bool :=
  !(a = 224 || a = 239 || 240 ≤ a || a = 127 || (a = 169 && b = 254))

/-- A MAC in six-group colon-separated hex form, letters in any case. -/
def isColonHexMAC (mac : String) : Bool :=
  match mac.toList with
  | [a1, a2, s1, b1, b2, s2, c1, c2, s3, d1, d2, s4, e1, e2, s5, f1, f2] =>
    [a1, a2, b1, b2, c1, c2, d1, d2, e1, e2, f1, f2].all isHexDigit &&
      [s1, s2, s3, s4, s5].all (· = ':')
  | _ => false

/-- The claim's test "starts with `pre`, compared case-insensitively": the
uppercase form of `mac` starts with the uppercase form of `pre`. -/
def startsWithIgnoringCase (mac pre : String) : Bool :=
  (pre.toList.map Char.toUpper).isPrefixOf (mac.toList.map Char.toUpper)

/-- The candidate of the first accepted line, in table order, that names the
hardware address `mac` (in normalised form). -/
def firstCandidate (lines : List String) (mac : String) : Option ScannedDevice :=
  lines.findSome? (fun line => (lineCandidate line).filter (fun c => c.MAC = mac))

/-- A neighbor table whose first two lines name one hardware address, in
different letter case and with different separators. -/
def sampleTable : String :=
  "? (192.168.1.1) at aa:bb:cc:dd:ee:ff [ether] on eth0\n" ++
  "  192.168.1.7          AA-BB-CC-DD-EE-FF     dynamic\n" ++
  "? (192.168.1.9) at 11:22:33:44:55:66 [ether] on eth0"

/-! ## device.go : the registry properties -/

/-- The uniqueness invariant of the data model: no two devices share a
non-empty `mac`, and no two share a non-empty `ip`. -/
def Unique (ds : List Device) : Prop :=
  ds.Pairwise (fun a b => (a.MAC = b.MAC → a.MAC = "") ∧ (a.IP = b.IP → a.IP = ""))

/-- The registry states reachable from the empty registry through `AddDevice`,
`RemoveDevice` and `UpdateStatuses`, with any environment behaviour. In the
`update` step `done` is arbitrary, which covers a snapshot taken before other
operations ran. -/
inductive Reachable (marshal : Marshal) : Registry → Prop where
  | empty (file : Option String) : Reachable marshal ⟨[], file⟩
  | add {r : Registry} (w : WriteResult) (d : Device) :
      Reachable marshal r → Reachable marshal (AddDevice marshal w d r).1
  | remove {r : Registry} (w : WriteResult) (id : String) :
      Reachable marshal r → Reachable marshal (RemoveDevice marshal w id r).1
  | update {r : Registry} (w : WriteResult) (probe : String → Bool) (now : Nat → Time)
      (done : List Device) :
      Reachable marshal r → Reachable marshal (UpdateStatuses marshal w probe now done r)

/-! ## Concrete inputs -/

/-- An encoder that always succeeds. -/
def sampleMarshal : Marshal := fun ds => .ok (String.join (ds.map (fun d => d.ID ++ ";")))

/-- A registered device with an uppercase MAC. -/
def deviceA : Device :=
  { ID := "1", Name := "nas", MAC := "AA:BB:CC:DD:EE:FF", IP := "192.168.1.10", Port := "9",
    IsOnline := false, LastOnline := 0 }

/-- The same hardware address as `deviceA`, written in lowercase, no IP. -/
def deviceALower : Device :=
  { ID := "2", Name := "nas again", MAC := "aa:bb:cc:dd:ee:ff", IP := "", Port := "9",
    IsOnline := false, LastOnline := 0 }

/-- A second device, without IP. -/
def deviceB : Device :=
  { ID := "3", Name := "desk", MAC := "11:22:33:44:55:66", IP := "", Port := "9",
    IsOnline := true, LastOnline := 7 }

/-- A third device. -/
def deviceC : Device :=
  { ID := "4", Name := "tv", MAC := "11:22:33:44:55:77", IP := "192.168.1.12", Port := "9",
    IsOnline := false, LastOnline := 5 }

/-- A registry holding `deviceA` only. -/
def registryA : Registry := { devices := [deviceA], file := some "1;" }

/-- A registry of three devices. -/
def registryABC : Registry := { devices := [deviceA, deviceB, deviceC], file := none }

/-! ## Lemmas on the registry operations -/

theorem saveDevicesUnlocked_devices (marshal : Marshal) (w : WriteResult) (r : Registry) :
    (saveDevicesUnlocked marshal w r).1.devices = r.devices := by
  unfold saveDevicesUnlocked
  cases marshal r.devices with
  | error e => rfl
  | ok data => cases w <;> rfl

theorem saveDevicesUnlocked_isDuplicate (marshal : Marshal) (w : WriteResult) (r : Registry) :
    Error.isDuplicate (saveDevicesUnlocked marshal w r).2 = false := by
  unfold saveDevicesUnlocked
  cases marshal r.devices with
  | error e => rfl
  | ok data => cases w <;> rfl

theorem isDuplicateOf_iff (d dev : Device) :
    isDuplicateOf d dev = true ↔ dev.MAC = d.MAC ∨ (dev.IP ≠ "" ∧ dev.IP = d.IP) := by
  simp [isDuplicateOf, and_comm]

theorem any_isDuplicateOf_iff (d : Device) (ds : List Device) :
    ds.any (isDuplicateOf d) = true ↔
      ∃ dev ∈ ds, dev.MAC = d.MAC ∨ (dev.IP ≠ "" ∧ dev.IP = d.IP) := by
  simp only [List.any_eq_true, isDuplicateOf_iff]

theorem AddDevice_devices_of_not_dup (marshal : Marshal) (w : WriteResult) (d : Device)
    (r : Registry) (h : r.devices.any (isDuplicateOf d) = false) :
    (AddDevice marshal w d r).1.devices = r.devices ++ [d] := by
  simp [AddDevice, h, saveDevicesUnlocked_devices]

theorem AddDevice_of_dup (marshal : Marshal) (w : WriteResult) (d : Device)
    (r : Registry) (h : r.devices.any (isDuplicateOf d) = true) :
    AddDevice marshal w d r = (r, some (.duplicateDevice d.MAC d.IP)) := by
  simp [AddDevice, h]

theorem Unique_append_single (ds : List Device) (d : Device) (hu : Unique ds)
    (h : ds.any (isDuplicateOf d) = false) : Unique (ds ++ [d]) := by
  unfold Unique at *
  rw [List.pairwise_append]
  refine ⟨hu, List.pairwise_singleton _ _, ?_⟩
  intro a ha b hb
  rw [List.mem_singleton] at hb
  subst hb
  have hnd : ¬ (a.MAC = b.MAC ∨ (a.IP ≠ "" ∧ a.IP = b.IP)) := by
    intro hc
    have : ds.any (isDuplicateOf b) = true := (any_isDuplicateOf_iff b ds).2 ⟨a, ha, hc⟩
    rw [h] at this
    exact Bool.false_ne_true this
  constructor
  · intro hm
    exact absurd (Or.inl hm) hnd
  · intro hip
    by_contra hne
    exact hnd (Or.inr ⟨hne, hip⟩)

theorem AddDevice_unique (marshal : Marshal) (w : WriteResult) (d : Device) (r : Registry)
    (hu : Unique r.devices) : Unique (AddDevice marshal w d r).1.devices := by
  cases h : r.devices.any (isDuplicateOf d) with
  | true => rw [AddDevice_of_dup marshal w d r h]; exact hu
  | false =>
    rw [AddDevice_devices_of_not_dup marshal w d r h]
    exact Unique_append_single r.devices d hu h

theorem RemoveDevice_sublist (marshal : Marshal) (w : WriteResult) (id : String) (r : Registry) :
    (RemoveDevice marshal w id r).1.devices.Sublist r.devices := by
  unfold RemoveDevice
  cases r.devices.findIdx? (fun dev => dev.ID == id) with
  | none => exact List.Sublist.refl _
  | some i =>
    simp only [saveDevicesUnlocked_devices]
    have h : (r.devices.take i ++ r.devices.drop (i + 1)).Sublist
        (r.devices.take i ++ r.devices.drop i) :=
      List.Sublist.append (List.Sublist.refl _)
        (by rw [← List.drop_drop 1 i r.devices]; exact List.drop_sublist _ _)
    rwa [List.take_append_drop] at h

theorem RemoveDevice_unique (marshal : Marshal) (w : WriteResult) (id : String) (r : Registry)
    (hu : Unique r.devices) : Unique (RemoveDevice marshal w id r).1.devices :=
  List.Pairwise.sublist (RemoveDevice_sublist marshal w id r) hu

/-- The update the loop of `UpdateStatuses` makes to one device in iteration `i`. -/
theorem applyResults_getElem? (now : Nat → Time) (results : Results) (ds : List Device)
    (i j : Nat) :
    (applyResults now results i ds)[j]? = ds[j]?.map (fun d =>
      match results d.ID with
      | some status =>
        { d with IsOnline := status, LastOnline := if status then now (i + j) else d.LastOnline }
      | none => d) := by
  induction ds generalizing i j with
  | nil => simp [applyResults]
  | cons d ds ih =>
    cases j with
    | zero => simp [applyResults]
    | succ j =>
      simp only [applyResults, List.getElem?_cons_succ, ih]
      have : i + 1 + j = i + (j + 1) := by omega
      rw [this]

theorem applyResults_length (now : Nat → Time) (results : Results) (ds : List Device)
    (i : Nat) : (applyResults now results i ds).length = ds.length := by
  induction ds generalizing i with
  | nil => rfl
  | cons d ds ih => simp [applyResults, ih]

theorem applyResults_keys (now : Nat → Time) (results : Results) (ds : List Device)
    (i : Nat) :
    List.Forall₂ (fun a b => a.MAC = b.MAC ∧ a.IP = b.IP)
      (applyResults now results i ds) ds := by
  induction ds generalizing i with
  | nil => exact List.Forall₂.nil
  | cons d ds ih =>
    refine List.Forall₂.cons ?_ (ih (i + 1))
    cases results d.ID <;> exact ⟨rfl, rfl⟩

theorem Unique_of_forall₂ {as bs : List Device}
    (h : List.Forall₂ (fun a b => a.MAC = b.MAC ∧ a.IP = b.IP) as bs) (hu : Unique bs) :
    Unique as := by
  unfold Unique at *
  induction h with
  | nil => exact List.Pairwise.nil
  | cons hab _ ih =>
    rename_i a b as bs htail
    rw [List.pairwise_cons] at hu ⊢
    refine ⟨?_, ih hu.2⟩
    intro a' ha'
    obtain ⟨b', hb', hrel⟩ : ∃ b' ∈ bs, a'.MAC = b'.MAC ∧ a'.IP = b'.IP := by
      clear ih hu
      induction htail with
      | nil => cases ha'
      | cons hxy _ ih2 =>
        rcases List.mem_cons.1 ha' with rfl | hmem
        · exact ⟨_, List.mem_cons_self _ _, hxy⟩
        · obtain ⟨b', hb', hr⟩ := ih2 hmem
          exact ⟨b', List.mem_cons_of_mem _ hb', hr⟩
    have := hu.1 b' hb'
    rw [hab.1, hab.2, hrel.1, hrel.2]
    exact this

theorem UpdateStatuses_devices (marshal : Marshal) (w : WriteResult) (probe : String → Bool)
    (now : Nat → Time) (done : List Device) (r : Registry) :
    (UpdateStatuses marshal w probe now done r).devices =
      applyResults now (collectResults probe done) 0 r.devices := by
  simp [UpdateStatuses, saveDevicesUnlocked_devices]

theorem UpdateStatuses_unique (marshal : Marshal) (w : WriteResult) (probe : String → Bool)
    (now : Nat → Time) (done : List Device) (r : Registry) (hu : Unique r.devices) :
    Unique (UpdateStatuses marshal w probe now done r).devices := by
  rw [UpdateStatuses_devices]
  exact Unique_of_forall₂ (applyResults_keys now _ r.devices 0) hu

theorem collectResults_fold (probe : String → Bool) (l : List Device) (m : Results)
    (hn : (l.map (·.ID)).Nodup) :
    (∀ d ∈ l, (l.foldl (fun m d => m.set d.ID (Ping probe d.IP)) m) d.ID
        = some (Ping probe d.IP)) ∧
    (∀ k, k ∉ l.map (·.ID) → (l.foldl (fun m d => m.set d.ID (Ping probe d.IP)) m) k = m k) := by
  induction l generalizing m with
  | nil => simp
  | cons x xs ih =>
    rw [List.map_cons, List.nodup_cons] at hn
    obtain ⟨ih1, ih2⟩ := ih (m.set x.ID (Ping probe x.IP)) hn.2
    constructor
    · intro d hd
      rcases List.mem_cons.1 hd with rfl | hmem
      · rw [List.foldl_cons, ih2 _ hn.1]
        simp [Results.set]
      · exact ih1 d hmem
    · intro k hk
      rw [List.map_cons, List.mem_cons, not_or] at hk
      rw [List.foldl_cons, ih2 k hk.2]
      simp [Results.set, hk.1]

theorem collectResults_of_mem (probe : String → Bool) (done : List Device)
    (hn : (done.map (·.ID)).Nodup) (d : Device) (hd : d ∈ done) :
    collectResults probe done d.ID = some (Ping probe d.IP) :=
  (collectResults_fold probe done _ hn).1 d hd

/-! ## Claims on the device registry -/

/-- C1: `AddDevice d` returns the duplicate-device error exactly when some
device already in the sequence has the same mac as `d`, or has a non-empty ip
equal to the ip of `d`; the error then is the one built from the mac and ip of
`d`, and in every other case the returned error is not a duplicate error. -/
theorem AddDevice_duplicate_iff (marshal : Marshal) (w : WriteResult) (d : Device)
    (r : Registry) :
    ((AddDevice marshal w d r).2 = some (.duplicateDevice d.MAC d.IP) ↔
      ∃ dev ∈ r.devices, dev.MAC = d.MAC ∨ (dev.IP ≠ "" ∧ dev.IP = d.IP)) ∧
    (Error.isDuplicate (AddDevice marshal w d r).2 = true ↔
      ∃ dev ∈ r.devices, dev.MAC = d.MAC ∨ (dev.IP ≠ "" ∧ dev.IP = d.IP)) := by
  rw [← any_isDuplicateOf_iff]
  cases h : r.devices.any (isDuplicateOf d) with
  | true => simp [AddDevice_of_dup marshal w d r h, Error.isDuplicate]
  | false =>
    have hnd : Error.isDuplicate (AddDevice marshal w d r).2 = false := by
      simp [AddDevice, h, saveDevicesUnlocked_isDuplicate]
    constructor
    · constructor
      · intro he
        rw [he] at hnd
        simp [Error.isDuplicate] at hnd
      · intro hc
        exact absurd hc Bool.false_ne_true
    · rw [hnd]

/-- C2, as the code has it: a device whose mac is equal, letter for letter, to
the mac of a registered device is refused with the duplicate-device error and
the registry is left as it was. -/
theorem AddDevice_same_mac_refused (marshal : Marshal) (w : WriteResult) (d : Device)
    (r : Registry) (h : ∃ dev ∈ r.devices, dev.MAC = d.MAC) :
    AddDevice marshal w d r = (r, some (.duplicateDevice d.MAC d.IP)) := by
  apply AddDevice_of_dup
  rw [any_isDuplicateOf_iff]
  obtain ⟨dev, hdev, hm⟩ := h
  exact ⟨dev, hdev, Or.inl hm⟩

theorem AddDevice_same_mac_refused_witness :
    (∃ dev ∈ registryA.devices, dev.MAC = deviceA.MAC) ∧
    AddDevice sampleMarshal .ok deviceA registryA =
      (registryA, some (.duplicateDevice "AA:BB:CC:DD:EE:FF" "192.168.1.10")) :=
  ⟨⟨deviceA, by decide, rfl⟩,
    AddDevice_same_mac_refused sampleMarshal .ok deviceA registryA ⟨deviceA, by decide, rfl⟩⟩

/-- C2 fails as stated: the registry holds `AA:BB:CC:DD:EE:FF`, the new device
has the mac `aa:bb:cc:dd:ee:ff`, equal up to letter case, and `AddDevice`
returns no error and extends the sequence. -/
theorem AddDevice_mac_case_sensitive :
    ToUpper deviceALower.MAC = ToUpper deviceA.MAC ∧
    deviceA ∈ registryA.devices ∧
    (AddDevice sampleMarshal .ok deviceALower registryA).2 = none ∧
    (AddDevice sampleMarshal .ok deviceALower registryA).1.devices =
      [deviceA, deviceALower] := by
  refine ⟨by decide, by decide, by decide, by decide⟩

/-- C3: the uniqueness invariant (no two devices share a non-empty mac, no two
share a non-empty ip) is kept by `AddDevice`, `RemoveDevice` and
`UpdateStatuses`, whatever they return and whatever the persist step does; the
empty registry has it, and so has every state reachable from the empty one. -/
theorem Unique_preserved (marshal : Marshal) :
    (∀ (w : WriteResult) (d : Device) (r : Registry),
      Unique r.devices → Unique (AddDevice marshal w d r).1.devices) ∧
    (∀ (w : WriteResult) (id : String) (r : Registry),
      Unique r.devices → Unique (RemoveDevice marshal w id r).1.devices) ∧
    (∀ (w : WriteResult) (probe : String → Bool) (now : Nat → Time) (done : List Device)
      (r : Registry),
      Unique r.devices → Unique (UpdateStatuses marshal w probe now done r).devices) ∧
    Unique [] ∧
    (∀ r : Registry, Reachable marshal r → Unique r.devices) := by
  refine ⟨AddDevice_unique marshal, RemoveDevice_unique marshal,
    UpdateStatuses_unique marshal, List.Pairwise.nil, ?_⟩
  intro r hr
  induction hr with
  | empty file => exact List.Pairwise.nil
  | add w d _ ih => exact AddDevice_unique marshal w d _ ih
  | remove w id _ ih => exact RemoveDevice_unique marshal w id _ ih
  | update w probe now done _ ih => exact UpdateStatuses_unique marshal w probe now done _ ih

theorem Unique_preserved_witness :
    Unique registryA.devices ∧
    Unique (AddDevice sampleMarshal (.failed "disk full" none) deviceC registryA).1.devices ∧
    Unique (RemoveDevice sampleMarshal .ok "1" registryA).1.devices :=
  ⟨List.pairwise_singleton _ _,
    (Unique_preserved sampleMarshal).1 _ deviceC registryA (List.pairwise_singleton _ _),
    (Unique_preserved sampleMarshal).2.1 _ "1" registryA (List.pairwise_singleton _ _)⟩

/-- C4: for an id that no device carries, `RemoveDevice` returns the not-found
error, leaves the device sequence as it was and writes nothing to the store. -/
theorem RemoveDevice_not_found (marshal : Marshal) (w : WriteResult) (id : String)
    (r : Registry) (h : ∀ dev ∈ r.devices, dev.ID ≠ id) :
    (RemoveDevice marshal w id r).2 = some .notFound ∧
    (RemoveDevice marshal w id r).1.devices = r.devices ∧
    (RemoveDevice marshal w id r).1.file = r.file := by
  have hnone : r.devices.findIdx? (fun dev => dev.ID == id) = none := by
    rw [List.findIdx?_eq_none_iff]
    intro dev hdev
    simpa using h dev hdev
  simp [RemoveDevice, hnone]

theorem RemoveDevice_not_found_witness :
    (∀ dev ∈ registryABC.devices, dev.ID ≠ "9") ∧
    (RemoveDevice sampleMarshal .ok "9" registryABC).2 = some .notFound ∧
    (RemoveDevice sampleMarshal .ok "9" registryABC).1.devices = registryABC.devices ∧
    (RemoveDevice sampleMarshal .ok "9" registryABC).1.file = registryABC.file :=
  ⟨by decide, RemoveDevice_not_found sampleMarshal .ok "9" registryABC (by decide)⟩

/-- C5: when `d` duplicates no device of the sequence `s`, the sequence after
`AddDevice d` is `s` with `d` appended as its last element, also when the
persist step fails; `AddDevice` returns no error when the store is written and
the persistence error when encoding or writing fails. -/
theorem AddDevice_appends (marshal : Marshal) (w : WriteResult) (d : Device) (r : Registry)
    (h : ∀ dev ∈ r.devices, ¬ (dev.MAC = d.MAC ∨ (dev.IP ≠ "" ∧ dev.IP = d.IP))) :
    (AddDevice marshal w d r).1.devices = r.devices ++ [d] ∧
    (∀ data, marshal (r.devices ++ [d]) = .ok data → w = .ok →
      (AddDevice marshal w d r).2 = none ∧ (AddDevice marshal w d r).1.file = some data) ∧
    (∀ data msg residue, marshal (r.devices ++ [d]) = .ok data → w = .failed msg residue →
      (AddDevice marshal w d r).2 = some (.persistence msg)) ∧
    (∀ msg, marshal (r.devices ++ [d]) = .error msg →
      (AddDevice marshal w d r).2 = some (.persistence msg)) := by
  have hnd : r.devices.any (isDuplicateOf d) = false := by
    rw [Bool.eq_false_iff]
    intro hc
    obtain ⟨dev, hdev, hdup⟩ := (any_isDuplicateOf_iff d r.devices).1 hc
    exact h dev hdev hdup
  refine ⟨AddDevice_devices_of_not_dup marshal w d r hnd, ?_, ?_, ?_⟩
  · intro data hm hw
    subst hw
    simp [AddDevice, hnd, saveDevicesUnlocked, hm]
  · intro data msg residue hm hw
    subst hw
    simp [AddDevice, hnd, saveDevicesUnlocked, hm]
  · intro msg hm
    simp [AddDevice, hnd, saveDevicesUnlocked, hm]

theorem AddDevice_appends_witness :
    (∀ dev ∈ registryA.devices,
      ¬ (dev.MAC = deviceB.MAC ∨ (dev.IP ≠ "" ∧ dev.IP = deviceB.IP))) ∧
    (AddDevice sampleMarshal (.failed "disk full" none) deviceB registryA).1.devices =
      [deviceA, deviceB] ∧
    (AddDevice sampleMarshal (.failed "disk full" none) deviceB registryA).2 =
      some (.persistence "disk full") :=
  ⟨by decide,
    (AddDevice_appends sampleMarshal (.failed "disk full" none) deviceB registryA
      (by decide)).1,
    (AddDevice_appends sampleMarshal (.failed "disk full" none) deviceB registryA
      (by decide)).2.2.1 _ "disk full" none rfl rfl⟩

/-- C9: in a registry whose ids are pairwise distinct, after `UpdateStatuses`
(the snapshot being the registry's devices, pinged in any order `done`) the
device at every position keeps all its other fields and has `IsOnline = true`
and `LastOnline` = the time read in the sweep when its ip is non-empty and
`probe` reports it reachable, and otherwise `IsOnline = false` and the
`LastOnline` it had before. -/
theorem UpdateStatuses_sets_status (marshal : Marshal) (w : WriteResult)
    (probe : String → Bool) (now : Nat → Time) (done : List Device) (r : Registry)
    (hids : (r.devices.map (·.ID)).Nodup) (hdone : done.Perm r.devices) :
    (UpdateStatuses marshal w probe now done r).devices.length = r.devices.length ∧
    ∀ (i : Nat) (d : Device), r.devices[i]? = some d →
      (UpdateStatuses marshal w probe now done r).devices[i]? = some
        (if d.IP ≠ "" ∧ probe d.IP = true then
          { d with IsOnline := true, LastOnline := now i }
        else { d with IsOnline := false, LastOnline := d.LastOnline }) := by
  rw [UpdateStatuses_devices]
  refine ⟨applyResults_length _ _ _ _, ?_⟩
  intro i d hd
  have hmem : d ∈ done := hdone.mem_iff.2 (List.getElem?_mem hd)
  have hn : (done.map (·.ID)).Nodup := (hdone.map _).nodup_iff.2 hids
  rw [applyResults_getElem?, hd, Option.map_some', collectResults_of_mem probe done hn d hmem]
  by_cases hip : d.IP = ""
  · simp [Ping, hip]
  · by_cases hp : probe d.IP = true
    · simp [Ping, hip, hp]
    · simp [Ping, hip, hp]

theorem UpdateStatuses_sets_status_witness :
    (registryABC.devices.map (·.ID)).Nodup ∧
    [deviceC, deviceA, deviceB].Perm registryABC.devices ∧
    (UpdateStatuses sampleMarshal .ok (fun ip => ip == "192.168.1.10") (fun i => 100 + i)
      [deviceC, deviceA, deviceB] registryABC).devices[0]? =
      some { deviceA with IsOnline := true, LastOnline := 100 } ∧
    (UpdateStatuses sampleMarshal .ok (fun ip => ip == "192.168.1.10") (fun i => 100 + i)
      [deviceC, deviceA, deviceB] registryABC).devices[2]? =
      some { deviceC with IsOnline := false, LastOnline := 5 } :=
  ⟨by decide, by decide,
    (UpdateStatuses_sets_status sampleMarshal .ok (fun ip => ip == "192.168.1.10")
      (fun i => 100 + i) [deviceC, deviceA, deviceB] registryABC (by decide) (by decide)).2
      0 deviceA rfl,
    (UpdateStatuses_sets_status sampleMarshal .ok (fun ip => ip == "192.168.1.10")
      (fun i => 100 + i) [deviceC, deviceA, deviceB] registryABC (by decide) (by decide)).2
      2 deviceC rfl⟩

/-! ## Lemmas on characters -/

theorem char_eq_ofNat (c : Char) (n : Nat) (h : c.toNat = n) : c = Char.ofNat n := by
  rw [← h, Char.ofNat_toNat]

/-- The characters of class `[0-9a-fA-F]`. -/
theorem isHexDigit_mem (c : Char) (h : isHexDigit c = true) :
    c ∈ "0123456789abcdefABCDEF".toList := by
  have h0 : ('0' : Char).val.toNat = 48 := rfl
  have h9 : ('9' : Char).val.toNat = 57 := rfl
  have ha : ('a' : Char).val.toNat = 97 := rfl
  have hf : ('f' : Char).val.toNat = 102 := rfl
  have hA : ('A' : Char).val.toNat = 65 := rfl
  have hF : ('F' : Char).val.toNat = 70 := rfl
  simp only [isHexDigit, Bool.or_eq_true, Bool.and_eq_true, decide_eq_true_eq, Char.le_def,
    UInt32.le_def, Fin.le_def] at h
  have hc : c.toNat = c.val.toNat := rfl
  have hr : (48 ≤ c.toNat ∧ c.toNat ≤ 57) ∨ (97 ≤ c.toNat ∧ c.toNat ≤ 102) ∨
      (65 ≤ c.toNat ∧ c.toNat ≤ 70) := by
    rw [hc]
    rcases h with (h | h) | h
    · left; exact ⟨by simpa [h0] using h.1, by simpa [h9] using h.2⟩
    · right; left; exact ⟨by simpa [ha] using h.1, by simpa [hf] using h.2⟩
    · right; right; exact ⟨by simpa [hA] using h.1, by simpa [hF] using h.2⟩
  generalize hn : c.toNat = n at hr
  have hcn := char_eq_ofNat c n hn
  subst hcn
  rcases hr with ⟨h1, h2⟩ | ⟨h1, h2⟩ | ⟨h1, h2⟩ <;> interval_cases n <;> decide

/-- On the characters a colon-hex MAC is made of, the lowercase comparison of
the code and the uppercase comparison of the claim agree. -/
theorem fold_agree :
    ∀ c ∈ "0123456789abcdefABCDEF".toList,
      ('f' = c.toLower ↔ 'F' = c.toUpper) ∧ ('e' = c.toLower ↔ 'E' = c.toUpper) ∧
      ('0' = c.toLower ↔ '0' = c.toUpper) ∧ ('1' = c.toLower ↔ '1' = c.toUpper) ∧
      ('3' = c.toLower ↔ '3' = c.toUpper) ∧ ('5' = c.toLower ↔ '5' = c.toUpper) ∧
      (c.toLower = '0' ↔ c = '0') := by
  decide

theorem fold_agree_hex (c : Char) (h : isHexDigit c = true) :
    ('f' = c.toLower ↔ 'F' = c.toUpper) ∧ ('e' = c.toLower ↔ 'E' = c.toUpper) ∧
      ('0' = c.toLower ↔ '0' = c.toUpper) ∧ ('1' = c.toLower ↔ '1' = c.toUpper) ∧
      ('3' = c.toLower ↔ '3' = c.toUpper) ∧ ('5' = c.toLower ↔ '5' = c.toUpper) ∧
      (c.toLower = '0' ↔ c = '0') :=
  fold_agree c (isHexDigit_mem c h)

/-- The result of `isValidMAC` in terms of the lowercase form it tests. -/
theorem isValidMAC_eq_false (mac : String) :
    isValidMAC mac = false ↔
      (HasPrefix (ToLower mac) "ff:ff:ff" = true ∨ HasPrefix (ToLower mac) "01:00:5e" = true ∨
        HasPrefix (ToLower mac) "33:33" = true ∨ ToLower mac = "00:00:00:00:00:00") := by
  unfold isValidMAC
  by_cases h1 : HasPrefix (ToLower mac) "ff:ff:ff" = true
  · simp [h1]
  · by_cases h2 : HasPrefix (ToLower mac) "01:00:5e" = true
    · simp [h2]
    · by_cases h3 : HasPrefix (ToLower mac) "33:33" = true
      · simp [h3]
      · by_cases h4 : ToLower mac = "00:00:00:00:00:00"
        · simp [h4]
        · simp [h1, h2, h3, h4]

/-- The shape of a MAC in colon-hex form. -/
theorem isColonHexMAC_shape (mac : String) (h : isColonHexMAC mac = true) :
    ∃ a1 a2 b1 b2 c1 c2 d1 d2 e1 e2 f1 f2 : Char,
      mac = String.mk [a1, a2, ':', b1, b2, ':', c1, c2, ':', d1, d2, ':', e1, e2, ':', f1, f2] ∧
      isHexDigit a1 = true ∧ isHexDigit a2 = true ∧ isHexDigit b1 = true ∧
      isHexDigit b2 = true ∧ isHexDigit c1 = true ∧ isHexDigit c2 = true ∧
      isHexDigit d1 = true ∧ isHexDigit d2 = true ∧ isHexDigit e1 = true ∧
      isHexDigit e2 = true ∧ isHexDigit f1 = true ∧ isHexDigit f2 = true := by
  obtain ⟨l⟩ := mac
  unfold isColonHexMAC at h
  simp only [String.toList] at h
  split at h
  · rename_i a1 a2 s1 b1 b2 s2 c1 c2 s3 d1 d2 s4 e1 e2 s5 f1 f2
    simp only [List.all_cons, List.all_nil, Bool.and_true, Bool.and_eq_true,
      decide_eq_true_eq] at h
    obtain ⟨⟨ha1, ha2, hb1, hb2, hc1, hc2, hd1, hd2, he1, he2, hf1, hf2⟩,
      hs1, hs2, hs3, hs4, hs5⟩ := h
    subst hs1 hs2 hs3 hs4 hs5
    exact ⟨a1, a2, b1, b2, c1, c2, d1, d2, e1, e2, f1, f2, rfl,
      ha1, ha2, hb1, hb2, hc1, hc2, hd1, hd2, he1, he2, hf1, hf2⟩
  · exact absurd h Bool.false_ne_true

/-! ## Claims on the address filters -/

/-- C6 fails on the code: the test for the reserved range is the string
comparison `firstOctet >= "240"`, so `isValidScanIP` also returns false for
first octets such as 8, 25 or 99, which the claim has accepted; the five
addresses the spec lists behave as the claim says. -/
theorem isValidScanIP_string_compare :
    isValidScanIP "8.8.8.8" = false ∧ expectedValidScanIP 8 8 = true ∧
    isValidScanIP "25.1.1.1" = false ∧ expectedValidScanIP 25 1 = true ∧
    isValidScanIP "99.1.1.1" = false ∧ expectedValidScanIP 99 1 = true ∧
    isValidScanIP "127.0.0.1" = false ∧ isValidScanIP "169.254.1.1" = false ∧
    isValidScanIP "224.0.0.1" = false ∧ isValidScanIP "250.1.1.1" = false ∧
    isValidScanIP "192.168.1.5" = true := by
  decide

/-- C7: on a MAC in six-group colon-separated hex form, in any letter case,
`isValidMAC` returns false exactly when the MAC, compared case-insensitively,
starts with `FF:FF:FF`, with `01:00:5E` or with `33:33`, or is
`00:00:00:00:00:00`; it rejects the four addresses the spec lists and accepts
`AA:BB:CC:DD:EE:FF`. -/
theorem isValidMAC_false_iff (mac : String) (h : isColonHexMAC mac = true) :
    (isValidMAC mac = false ↔
      (startsWithIgnoringCase mac "FF:FF:FF" = true ∨
        startsWithIgnoringCase mac "01:00:5E" = true ∨
        startsWithIgnoringCase mac "33:33" = true ∨
        mac = "00:00:00:00:00:00")) ∧
    isValidMAC "FF:FF:FF:FF:FF:FF" = false ∧ isValidMAC "01:00:5E:00:00:01" = false ∧
    isValidMAC "33:33:00:00:00:01" = false ∧ isValidMAC "00:00:00:00:00:00" = false ∧
    isValidMAC "AA:BB:CC:DD:EE:FF" = true := by
  refine ⟨?_, by decide, by decide, by decide, by decide, by decide⟩
  obtain ⟨a1, a2, b1, b2, c1, c2, d1, d2, e1, e2, f1, f2, rfl,
    ha1, ha2, hb1, hb2, hc1, hc2, hd1, hd2, he1, he2, hf1, hf2⟩ := isColonHexMAC_shape mac h
  have A1 := fold_agree_hex a1 ha1
  have A2 := fold_agree_hex a2 ha2
  have B1 := fold_agree_hex b1 hb1
  have B2 := fold_agree_hex b2 hb2
  have C1 := fold_agree_hex c1 hc1
  have C2 := fold_agree_hex c2 hc2
  have D1 := fold_agree_hex d1 hd1
  have D2 := fold_agree_hex d2 hd2
  have E1 := fold_agree_hex e1 he1
  have E2 := fold_agree_hex e2 he2
  have F1 := fold_agree_hex f1 hf1
  have F2 := fold_agree_hex f2 hf2
  have hcolonL : (':' : Char).toLower = ':' := by decide
  have hcolonU : (':' : Char).toUpper = ':' := by decide
  have hmk : ∀ l : List Char, (String.mk l).toList = l := fun _ => rfl
  have p1 : "ff:ff:ff".toList = ['f', 'f', ':', 'f', 'f', ':', 'f', 'f'] := rfl
  have p2 : "01:00:5e".toList = ['0', '1', ':', '0', '0', ':', '5', 'e'] := rfl
  have p3 : "33:33".toList = ['3', '3', ':', '3', '3'] := rfl
  have p4 : "00:00:00:00:00:00" = String.mk ['0', '0', ':', '0', '0', ':', '0', '0', ':',
    '0', '0', ':', '0', '0', ':', '0', '0'] := rfl
  have q1 : "FF:FF:FF".toList.map Char.toUpper = ['F', 'F', ':', 'F', 'F', ':', 'F', 'F'] := by
    decide
  have q2 : "01:00:5E".toList.map Char.toUpper = ['0', '1', ':', '0', '0', ':', '5', 'E'] := by
    decide
  have h3U : ('3' : Char).toUpper = '3' := by decide
  rw [isValidMAC_eq_false]
  unfold HasPrefix startsWithIgnoringCase ToLower
  rw [q1, q2, p1, p2, p3, p4]
  simp only [hmk, List.map_cons, List.map_nil, List.isPrefixOf, hcolonL, hcolonU, h3U,
    Bool.and_eq_true, beq_iff_eq, String.ext_iff, List.cons.injEq, and_true, true_and,
    A1, A2, B1, B2, C1, C2, D1, D2, E1, E2, F1, F2]

theorem isValidMAC_false_iff_witness :
    isColonHexMAC "ff:Ff:fF:00:11:22" = true ∧ isValidMAC "ff:Ff:fF:00:11:22" = false :=
  ⟨by decide, (isValidMAC_false_iff "ff:Ff:fF:00:11:22" (by decide)).1.2 (Or.inl (by decide))⟩

/-! ## Lemmas on `parseArpOutput` -/

/-- One iteration of the loop, in terms of the candidate of the line. -/
theorem parseLine_eq (st : ParseState) (line : String) :
    parseLine st line =
      match lineCandidate line with
      | none => st
      | some c =>
        if st.seen c.MAC = true then st
        else { devices := st.devices ++ [c],
               seen := fun k => if k = c.MAC then true else st.seen k } := by
  unfold parseLine lineCandidate
  by_cases h1 : FindString reIP line ≠ "" ∧ FindString reMAC line ≠ ""
  · by_cases h2 : isValidScanIP (FindString reIP line) = true
    · by_cases h3 : isValidMAC (ToUpper (ReplaceAll (FindString reMAC line) '-' ':')) = true
      · by_cases h4 : st.seen (ToUpper (ReplaceAll (FindString reMAC line) '-' ':')) = true
        · simp [h1, h2, h3, h4]
        · simp [h1, h2, h3, h4]
      · simp [h1, h2, h3]
    · simp [h1, h2]
  · have h1' : ¬ (FindString reIP line ≠ "" ∧ FindString reMAC line ≠ "" ∧
        isValidScanIP (FindString reIP line) = true ∧
        isValidMAC (ToUpper (ReplaceAll (FindString reMAC line) '-' ':')) = true) :=
      fun h => h1 ⟨h.1, h.2.1⟩
    rw [if_neg h1, if_neg h1']

theorem firstCandidate_append (ls : List String) (line : String) (mac : String) :
    firstCandidate (ls ++ [line]) mac =
      match firstCandidate ls mac with
      | some c => some c
      | none => (lineCandidate line).filter (fun c => c.MAC = mac) := by
  unfold firstCandidate
  rw [List.findSome?_append]
  cases List.findSome? (fun line => (lineCandidate line).filter (fun c => c.MAC = mac)) ls with
  | some c => rfl
  | none =>
    simp only [List.findSome?, Option.none_orElse]
    cases Option.filter (fun c => decide (c.MAC = mac)) (lineCandidate line) <;> rfl

theorem firstCandidate_mac (ls : List String) (mac : String) (c : ScannedDevice)
    (h : firstCandidate ls mac = some c) : c.MAC = mac := by
  unfold firstCandidate at h
  obtain ⟨line, _, hline⟩ := List.exists_of_findSome?_eq_some h
  rw [Option.filter_eq_some] at hline
  simpa using hline.2

/-- The state of the loop after the lines `ls`: a MAC is marked seen exactly
when an accepted line named it, and the candidates kept for it are the
candidate of the first such line. -/
theorem parse_invariant (ls : List String) :
    (∀ mac, (ls.foldl parseLine { devices := [], seen := fun _ => false }).seen mac =
      (firstCandidate ls mac).isSome) ∧
    (∀ mac, (ls.foldl parseLine { devices := [], seen := fun _ => false }).devices.filter
      (fun c => c.MAC = mac) = (firstCandidate ls mac).toList) := by
  induction ls using List.reverseRecOn with
  | nil => simp [firstCandidate]
  | append_singleton ls line ih =>
    obtain ⟨ihs, ihd⟩ := ih
    rw [List.foldl_append, List.foldl_cons, List.foldl_nil, parseLine_eq]
    generalize ls.foldl parseLine { devices := [], seen := fun _ => false } = st at ihs ihd
    cases hc : lineCandidate line with
    | none =>
      simp only [firstCandidate_append, hc, Option.filter]
      constructor
      · intro mac
        rw [ihs]
        cases firstCandidate ls mac <;> rfl
      · intro mac
        rw [ihd]
        cases firstCandidate ls mac <;> rfl
    | some c =>
      by_cases hseen : st.seen c.MAC = true
      · simp only [hseen, if_true, firstCandidate_append, hc]
        have hsome : (firstCandidate ls c.MAC).isSome = true := by rw [← ihs]; exact hseen
        constructor
        · intro mac
          rw [ihs]
          by_cases hm : c.MAC = mac
          · subst hm
            obtain ⟨c', hc'⟩ := Option.isSome_iff_exists.1 hsome
            simp [hc']
          · cases firstCandidate ls mac <;> simp [Option.filter, hm]
        · intro mac
          rw [ihd]
          by_cases hm : c.MAC = mac
          · subst hm
            obtain ⟨c', hc'⟩ := Option.isSome_iff_exists.1 hsome
            simp [hc']
          · cases firstCandidate ls mac <;> simp [Option.filter, hm]
      · dsimp only
        rw [if_neg hseen]
        simp only [firstCandidate_append, hc]
        have hnone : firstCandidate ls c.MAC = none := by
          have := ihs c.MAC
          rw [Bool.not_eq_true] at hseen
          rw [hseen] at this
          cases hf : firstCandidate ls c.MAC with
          | none => rfl
          | some _ => rw [hf] at this; simp at this
        constructor
        · intro mac
          by_cases hm : mac = c.MAC
          · subst hm
            simp [hnone, Option.filter]
          · have hm' : ¬ c.MAC = mac := fun h => hm h.symm
            simp only [hm, if_false, Bool.false_eq_true]
            rw [ihs]
            cases firstCandidate ls mac <;> simp [Option.filter, hm']
        · intro mac
          rw [List.filter_append, ihd]
          by_cases hm : c.MAC = mac
          · subst hm
            simp [hnone, Option.filter]
          · cases firstCandidate ls mac <;> simp [Option.filter, hm]

/-- A list that holds at most one element for each key has distinct keys. -/
theorem nodup_of_filter_le_one (l : List ScannedDevice)
    (h : ∀ mac, (l.filter (fun c => c.MAC = mac)).length ≤ 1) :
    (l.map (·.MAC)).Nodup := by
  induction l with
  | nil => exact List.nodup_nil
  | cons x xs ih =>
    rw [List.map_cons, List.nodup_cons]
    constructor
    · intro hmem
      obtain ⟨y, hy, hxy⟩ := List.mem_map.1 hmem
      have h1 := h x.MAC
      have hy' : y ∈ xs.filter (fun c => c.MAC = x.MAC) := by
        simp [List.mem_filter, hy, hxy]
      have hpos : 0 < (xs.filter (fun c => decide (c.MAC = x.MAC))).length :=
        List.length_pos_of_mem hy'
      rw [List.filter_cons_of_pos (by simp), List.length_cons] at h1
      omega
    · apply ih
      intro mac
      have h1 := h mac
      rw [List.filter_cons] at h1
      split at h1
      · rw [List.length_cons] at h1; omega
      · exact h1

/-! ## Claim on the neighbor-table parser -/

/-- C8: `parseArpOutput` returns no two candidates with the same MAC, MACs
being in normalised form (uppercase, colon-separated); for every hardware
address, the candidates returned for it are exactly the candidate of the
first accepted line naming it, so whenever accepted lines name an address, in
any letter case and with either separator, one candidate is returned for it
and it carries the ip of the first such line. A line is accepted when it holds
an IP token and a MAC token and both pass the filters `isValidScanIP` and
`isValidMAC`. -/
theorem parseArpOutput_dedup (output : String) :
    ((parseArpOutput output).map (·.MAC)).Nodup ∧
    (∀ mac, (parseArpOutput output).filter (fun c => c.MAC = mac) =
      (firstCandidate (Split output '\n') mac).toList) ∧
    (∀ line ∈ Split output '\n', ∀ c, lineCandidate line = some c →
      ∃ c₁, firstCandidate (Split output '\n') c.MAC = some c₁ ∧ c₁.MAC = c.MAC ∧
        (parseArpOutput output).filter (fun x => x.MAC = c.MAC) = [c₁]) := by
  have hinv := (parse_invariant (Split output '\n')).2
  have hfilter : ∀ mac, (parseArpOutput output).filter (fun c => c.MAC = mac) =
      (firstCandidate (Split output '\n') mac).toList := hinv
  refine ⟨?_, hfilter, ?_⟩
  · apply nodup_of_filter_le_one
    intro mac
    rw [hfilter]
    cases firstCandidate (Split output '\n') mac <;> simp
  · intro line hline c hc
    have hsome : (firstCandidate (Split output '\n') c.MAC).isSome = true := by
      unfold firstCandidate
      rw [List.findSome?_isSome_iff]
      exact ⟨line, hline, by simp [hc, Option.filter]⟩
    obtain ⟨c₁, hc₁⟩ := Option.isSome_iff_exists.1 hsome
    refine ⟨c₁, hc₁, firstCandidate_mac _ _ _ hc₁, ?_⟩
    rw [hfilter, hc₁]
    rfl

set_option maxRecDepth 100000 in
theorem parseArpOutput_dedup_witness :
    (parseArpOutput sampleTable).filter (fun c => c.MAC = "AA:BB:CC:DD:EE:FF") =
      [{ IP := "192.168.1.1", MAC := "AA:BB:CC:DD:EE:FF" }] ∧
    lineCandidate "  192.168.1.7          AA-BB-CC-DD-EE-FF     dynamic" =
      some { IP := "192.168.1.7", MAC := "AA:BB:CC:DD:EE:FF" } :=
  ⟨((parseArpOutput_dedup sampleTable).2.1 "AA:BB:CC:DD:EE:FF").trans (by decide), by decide⟩

/-! ## Lemmas on the subnet enumeration -/

set_option maxRecDepth 1000000 in
theorem byteMask_fin : ∀ x : Fin 256, ∀ n : Fin 9,
    x.val &&& (255 - (255 >>> n.val)) = x.val / 2 ^ (8 - n.val) * 2 ^ (8 - n.val) := by
  decide

/-- The bitwise AND of a byte with a mask byte of `n` leading one-bits clears
the low `8 - n` bits. -/
theorem byteMask (x n : Nat) (hx : x < 256) (hn : n ≤ 8) :
    x &&& (255 - (255 >>> n)) = x / 2 ^ (8 - n) * 2 ^ (8 - n) :=
  byteMask_fin ⟨x, hx⟩ ⟨n, by omega⟩

theorem IsIPv4_shape (ip : IP) (h : IsIPv4 ip) :
    ∃ a b c d, ip = [a, b, c, d] ∧ a < 256 ∧ b < 256 ∧ c < 256 ∧ d < 256 := by
  obtain ⟨hlen, hb⟩ := h
  match ip, hlen, hb with
  | [a, b, c, d], _, hb =>
    exact ⟨a, b, c, d, rfl, hb a (by simp), hb b (by simp), hb c (by simp), hb d (by simp)⟩

theorem IsIPv4_quad (a b c d : Nat) (ha : a < 256) (hb : b < 256) (hc : c < 256)
    (hd : d < 256) : IsIPv4 [a, b, c, d] := by
  refine ⟨rfl, ?_⟩
  intro x hx
  simp only [List.mem_cons, List.mem_singleton, List.not_mem_nil, or_false] at hx
  rcases hx with rfl | rfl | rfl | rfl <;> assumption

theorem IsIPv4_ipOfValue (v : Nat) : IsIPv4 (ipOfValue v) :=
  IsIPv4_quad _ _ _ _ (Nat.mod_lt _ (by decide)) (Nat.mod_lt _ (by decide))
    (Nat.mod_lt _ (by decide)) (Nat.mod_lt _ (by decide))

theorem ipValue_ipOfValue (v : Nat) (hv : v < 4294967296) : ipValue (ipOfValue v) = v := by
  simp only [ipValue, ipOfValue]
  omega

theorem ipOfValue_ipValue (ip : IP) (h : IsIPv4 ip) : ipOfValue (ipValue ip) = ip := by
  obtain ⟨a, b, c, d, rfl, ha, hb, hc, hd⟩ := IsIPv4_shape ip h
  simp only [ipValue, ipOfValue]
  congr 1
  · omega
  · congr 1
    · omega
    · congr 1
      · omega
      · congr 1
        omega

theorem ipValue_lt (ip : IP) (h : IsIPv4 ip) : ipValue ip < 4294967296 := by
  obtain ⟨a, b, c, d, rfl, ha, hb, hc, hd⟩ := IsIPv4_shape ip h
  simp only [ipValue]
  omega

/-- Masking with the CIDR mask of prefix length `p` clears the low `32 - p`
bits of the 32-bit value. -/
theorem Mask_CIDRMask (ip : IP) (p : Nat) (h : IsIPv4 ip) (hp : p ≤ 32) :
    IsIPv4 (Mask ip (CIDRMask p 4)) ∧
    ipValue (Mask ip (CIDRMask p 4)) = ipValue ip / 2 ^ (32 - p) * 2 ^ (32 - p) := by
  obtain ⟨a, b, c, d, rfl, ha, hb, hc, hd⟩ := IsIPv4_shape ip h
  have m8 : ∀ x, x < 256 → x &&& 255 = x := fun x hx => by
    have := byteMask x 8 hx (by decide); simpa using this
  have m7 : ∀ x, x < 256 → x &&& 254 = x / 2 * 2 := fun x hx => byteMask x 7 hx (by decide)
  have m6 : ∀ x, x < 256 → x &&& 252 = x / 4 * 4 := fun x hx => byteMask x 6 hx (by decide)
  have m5 : ∀ x, x < 256 → x &&& 248 = x / 8 * 8 := fun x hx => byteMask x 5 hx (by decide)
  have m4 : ∀ x, x < 256 → x &&& 240 = x / 16 * 16 := fun x hx => byteMask x 4 hx (by decide)
  have m3 : ∀ x, x < 256 → x &&& 224 = x / 32 * 32 := fun x hx => byteMask x 3 hx (by decide)
  have m2 : ∀ x, x < 256 → x &&& 192 = x / 64 * 64 := fun x hx => byteMask x 2 hx (by decide)
  have m1 : ∀ x, x < 256 → x &&& 128 = x / 128 * 128 := fun x hx => byteMask x 1 hx (by decide)
  have m0 : ∀ x : Nat, x &&& 0 = 0 := fun x => Nat.and_zero x
  interval_cases p <;>
    simp only [CIDRMask, Mask, List.zipWith, ipValue, m8 _ ha, m8 _ hb, m8 _ hc, m8 _ hd,
      m7 _ ha, m7 _ hb, m7 _ hc, m7 _ hd, m6 _ ha, m6 _ hb, m6 _ hc, m6 _ hd,
      m5 _ ha, m5 _ hb, m5 _ hc, m5 _ hd, m4 _ ha, m4 _ hb, m4 _ hc, m4 _ hd,
      m3 _ ha, m3 _ hb, m3 _ hc, m3 _ hd, m2 _ ha, m2 _ hb, m2 _ hc, m2 _ hd,
      m1 _ ha, m1 _ hb, m1 _ hc, m1 _ hd, m0, Nat.reduceLeDiff, Nat.reduceSub,
      Nat.reduceShiftRight, if_true, if_false, Nat.reducePow, Nat.le_refl, ite_true, ite_false,
      Nat.reduceLTLE, Nat.not_succ_le_zero, Nat.zero_le] <;>
    refine ⟨IsIPv4_quad _ _ _ _ (by omega) (by omega) (by omega) (by omega), by omega⟩

theorem wrapInt_eq (x : Int) (h1 : -9223372036854775808 ≤ x) (h2 : x < 9223372036854775808) :
    wrapInt x = x := by
  unfold wrapInt
  omega

/-- The number of addresses scanned, for a prefix length up to 30. -/
theorem hostCount_eq (p : Nat) (hp : p ≤ 30) :
    (hostCount p).toNat = min (2 ^ (32 - p) - 2) 512 := by
  interval_cases p <;> simp [hostCount, wrapInt]

/-- The inner loop adds `i` to the 32-bit big-endian value of the address. -/
theorem addOffset_eq (a b c d i : Nat) (ha : a < 256) (hb : b < 256) (hc : c < 256)
    (hd : d < 256) (hi : ipValue [a, b, c, d] + i < 4294967296) :
    addOffset [a, b, c, d] (i : Int) = ipOfValue (ipValue [a, b, c, d] + i) := by
  simp only [ipValue] at hi
  have step : ∀ x n : Nat, x < 256 → n < 4294967296 →
      wrapInt ((x : Int) + (n : Int)) = ((x + n : Nat) : Int) := by
    intro x n hx hn
    rw [wrapInt_eq _ (by omega) (by omega)]
    omega
  have hmod : ∀ n : Nat, (((n : Nat) : Int) % 256).toNat = n % 256 := by
    intro n; omega
  have hdiv : ∀ n : Nat, ((n : Nat) : Int) / 256 = ((n / 256 : Nat) : Int) := by
    intro n; omega
  have hpos : ∀ n : Nat, ((n : Nat) : Int) > 0 ↔ 0 < n := by
    intro n; omega
  have h1 : (d + i) / 256 < 4294967296 := by omega
  have h2 : (c + (d + i) / 256) / 256 < 4294967296 := by omega
  have h3 : (b + (c + (d + i) / 256) / 256) / 256 < 4294967296 := by omega
  simp only [addOffset, List.reverse_cons, List.reverse_nil, List.nil_append, List.cons_append,
    List.singleton_append, addOffsetRev]
  rw [step d i hd (by omega)]
  simp only [hmod, hdiv, hpos]
  rw [step c _ hc h1]
  simp only [hmod, hdiv, hpos]
  rw [step b _ hb h2]
  simp only [hmod, hdiv, hpos]
  rw [step a _ ha h3]
  simp only [hmod, hdiv, hpos, ipOfValue, ipValue]
  generalize hq1 : (d + i) / 256 = q1
  generalize hq2 : (c + q1) / 256 = q2
  generalize hq3 : (b + q2) / 256 = q3
  have k0 : (((a * 256 + b) * 256 + c) * 256 + d + i) % 256 = (d + i) % 256 := by omega
  have k1 : (((a * 256 + b) * 256 + c) * 256 + d + i) / 256 = (a * 256 + b) * 256 + c + q1 := by
    omega
  have k2 : (((a * 256 + b) * 256 + c) * 256 + d + i) / 65536 = a * 256 + b + q2 := by
    omega
  have k3 : (((a * 256 + b) * 256 + c) * 256 + d + i) / 16777216 = a + q3 := by
    omega
  have m1 : ((a * 256 + b) * 256 + c + q1) % 256 = (c + q1) % 256 := by omega
  have m2 : (a * 256 + b + q2) % 256 = (b + q2) % 256 := by omega
  rw [k0, k1, k2, k3, m1, m2]
  clear k0 k1 k2 k3 m1 m2 step hmod hdiv hpos h1 h2 h3 hi
  split_ifs <;>
    simp only [List.reverse_cons, List.reverse_nil, List.nil_append, List.cons_append,
      List.singleton_append, List.cons.injEq, and_true] <;>
    omega

/-- The scan stays inside the 32-bit address space. -/
theorem base_add_lt (v p : Nat) (hv : v < 4294967296) (hp : p ≤ 30) :
    v / 2 ^ (32 - p) * 2 ^ (32 - p) + min (2 ^ (32 - p) - 2) 512 < 4294967296 := by
  interval_cases p <;> simp only [Nat.reduceSub, Nat.reducePow] <;> omega

/-- The values `B + 1, ..., B + 2^(32-p) - 2` above the network address `B` are
exactly the values of the subnet other than its first and its last. -/
theorem subnet_arith (vL va p : Nat) (hp1 : 23 ≤ p) (hp2 : p ≤ 30) :
    (vL / 2 ^ (32 - p) * 2 ^ (32 - p) + 1 ≤ va ∧
        va < vL / 2 ^ (32 - p) * 2 ^ (32 - p) + 1 + min (2 ^ (32 - p) - 2) 512) ↔
      (va / 2 ^ (32 - p) * 2 ^ (32 - p) = vL / 2 ^ (32 - p) * 2 ^ (32 - p) ∧
        va ≠ vL / 2 ^ (32 - p) * 2 ^ (32 - p) ∧
        va ≠ vL / 2 ^ (32 - p) * 2 ^ (32 - p) + 2 ^ (32 - p) - 1) := by
  interval_cases p <;> simp only [Nat.reduceSub, Nat.reducePow] <;> omega

theorem ipValue_injective (x y : IP) (hx : IsIPv4 x) (hy : IsIPv4 y)
    (h : ipValue x = ipValue y) : x = y := by
  rw [← ipOfValue_ipValue x hx, ← ipOfValue_ipValue y hy, h]

/-- The addresses generated, as offsets from the network address. -/
theorem candidateIPs_eq (L : IP) (p : Nat) (hL : IsIPv4 L) (hp : p ≤ 30) :
    candidateIPs L p = (List.range' 1 (min (2 ^ (32 - p) - 2) 512)).map
      (fun i => ipOfValue (ipValue (Mask L (CIDRMask p 4)) + i)) := by
  obtain ⟨hB4, hB⟩ := Mask_CIDRMask L p hL (by omega)
  have hlt := base_add_lt (ipValue L) p (ipValue_lt L hL) hp
  rw [← hB] at hlt
  obtain ⟨a, b, c, d, hshape, ha, hb, hc, hd⟩ := IsIPv4_shape _ hB4
  unfold candidateIPs
  simp only [hostCount_eq p hp]
  apply List.map_congr_left
  intro i hi
  rw [List.mem_range'_1] at hi
  rw [hshape] at hlt ⊢
  exact addOffset_eq a b c d i ha hb hc hd (by omega)

theorem candidateIPs_values (L : IP) (p : Nat) (hL : IsIPv4 L) (hp : p ≤ 30) :
    (candidateIPs L p).map ipValue =
      List.range' (ipValue (Mask L (CIDRMask p 4)) + 1) (min (2 ^ (32 - p) - 2) 512) := by
  obtain ⟨_, hB⟩ := Mask_CIDRMask L p hL (by omega)
  have hlt := base_add_lt (ipValue L) p (ipValue_lt L hL) hp
  rw [← hB] at hlt
  rw [candidateIPs_eq L p hL hp, List.map_map, ← List.map_add_range']
  apply List.map_congr_left
  intro i hi
  rw [List.mem_range'_1] at hi
  exact ipValue_ipOfValue _ (by omega)

theorem candidateIPs_isIPv4 (L : IP) (p : Nat) (hL : IsIPv4 L) (hp : p ≤ 30) (a : IP)
    (ha : a ∈ candidateIPs L p) : IsIPv4 a := by
  rw [candidateIPs_eq L p hL hp, List.mem_map] at ha
  obtain ⟨i, _, rfl⟩ := ha
  exact IsIPv4_ipOfValue _

/-! ## Claim on the subnet enumeration -/

/-- C10: for a local IPv4 address `L` and a prefix length `p ≤ 30`, with `B` the
value of `L` masked by the prefix (the value of `L` with its low `32 - p` bits
cleared) and `N = min (2^(32-p) - 2) 512`, the addresses `ScanLocalNetwork`
generates before the local-address test are the addresses of the values
`B + 1, ..., B + N`, each once and in ascending order; a /24 gives 254 of them;
the addresses pinged are these without `L`; and for `p ≥ 23` the addresses
pinged are exactly the host addresses of the subnet other than `L`. -/
theorem ScanLocalNetwork_candidates (L : IP) (p : Nat) (hL : IsIPv4 L) (hp : p ≤ 30) :
    ipValue (Mask L (CIDRMask p 4)) = ipValue L / 2 ^ (32 - p) * 2 ^ (32 - p) ∧
    candidateIPs L p = (List.range' 1 (min (2 ^ (32 - p) - 2) 512)).map
      (fun i => ipOfValue (ipValue (Mask L (CIDRMask p 4)) + i)) ∧
    (candidateIPs L p).map ipValue =
      List.range' (ipValue (Mask L (CIDRMask p 4)) + 1) (min (2 ^ (32 - p) - 2) 512) ∧
    (p = 24 → (candidateIPs L p).length = 254) ∧
    scanTargets L p = (candidateIPs L p).filter (fun a => a ≠ L) ∧
    (23 ≤ p → ∀ a : IP, a ∈ scanTargets L p ↔ (IsHostAddress L p a ∧ a ≠ L)) := by
  obtain ⟨hB4, hB⟩ := Mask_CIDRMask L p hL (by omega)
  have hscan : scanTargets L p = (candidateIPs L p).filter (fun a => a ≠ L) := by
    unfold scanTargets
    congr 1
    funext a
    by_cases h : a = L <;> simp [h]
  refine ⟨hB, candidateIPs_eq L p hL hp, candidateIPs_values L p hL hp, ?_, hscan, ?_⟩
  · intro h24
    subst h24
    rw [candidateIPs_eq L 24 hL hp, List.length_map, List.length_range']
    rfl
  · intro hp23 a
    rw [hscan, List.mem_filter, decide_eq_true_eq]
    apply and_congr_left
    intro _
    unfold IsHostAddress inSubnet
    constructor
    · intro hmem
      have ha4 := candidateIPs_isIPv4 L p hL hp a hmem
      have hval : ipValue a ∈ (candidateIPs L p).map ipValue := List.mem_map_of_mem _ hmem
      rw [candidateIPs_values L p hL hp, List.mem_range'_1, hB] at hval
      obtain ⟨hA4, hA⟩ := Mask_CIDRMask a p ha4 (by omega)
      have hiff := (subnet_arith (ipValue L) (ipValue a) p hp23 hp).1 hval
      refine ⟨ha4, ?_, ?_, ?_⟩
      · apply ipValue_injective _ _ hA4 hB4
        rw [hA, hB]
        exact hiff.1
      · rw [hB]; exact hiff.2.1
      · rw [hB]; exact hiff.2.2
    · rintro ⟨ha4, hsub, hne1, hne2⟩
      obtain ⟨_, hA⟩ := Mask_CIDRMask a p ha4 (by omega)
      rw [hB] at hne1 hne2
      have hmask : ipValue a / 2 ^ (32 - p) * 2 ^ (32 - p) =
          ipValue L / 2 ^ (32 - p) * 2 ^ (32 - p) := by
        rw [← hA, ← hB, hsub]
      have hval := (subnet_arith (ipValue L) (ipValue a) p hp23 hp).2 ⟨hmask, hne1, hne2⟩
      rw [← hB, ← List.mem_range'_1, ← candidateIPs_values L p hL hp, List.mem_map] at hval
      obtain ⟨c, hc, hca⟩ := hval
      have := ipValue_injective c a (candidateIPs_isIPv4 L p hL hp c hc) ha4 hca
      rw [← this]
      exact hc

theorem ScanLocalNetwork_candidates_witness :
    IsIPv4 [192, 168, 1, 77] ∧ (candidateIPs [192, 168, 1, 77] 24).length = 254 ∧
    ipValue (Mask [192, 168, 1, 77] (CIDRMask 24 4)) = ipValue [192, 168, 1, 0] :=
  ⟨by unfold IsIPv4; decide,
    (ScanLocalNetwork_candidates [192, 168, 1, 77] 24 (by unfold IsIPv4; decide)
      (by decide)).2.2.2.1 rfl,
    (ScanLocalNetwork_candidates [192, 168, 1, 77] 24 (by unfold IsIPv4; decide)
      (by decide)).1.trans (by decide)⟩

end WolGoWeb
